import Mathlib

/-!
Shallow embedding of the temperature-forecast repository
(`src/script/recurrent_prediction.py` and `src/script/training.py`).

The recurrent rollout engine `get_true_pred_recurrent`, the block extractor
`get_block_temperature_recurrent`, and the training loop `train` /
`calculate_test_loss` are translated into executable Lean definitions.
Torch tensors of rank 2 become `Tensor2D` values (a second-dimension `width`
plus a list of rows, mirroring the tensor metadata that `torch.cat` checks);
the external collaborators (the model, `unscale_temperature`, the optimizer,
scheduler and optuna trial) are opaque function parameters, exactly as the
Python code treats them.  Scalars are kept abstract (`α`) in the rollout,
which performs no arithmetic on them, and are rationals in the training
loop, which divides accumulated losses by dataset sizes.
-/

namespace TempForecast

/-- Error kinds surfaced by the embedded code: shape mismatches raised by
`torch.cat`, the failure on reading index 0 of an empty source, index errors
from out-of-range tensor indexing, and `optuna.exceptions.TrialPruned`. -/
inductive Err where
  | shapeMismatch
  | emptySource
  | indexOutOfRange
  | pruned
deriving DecidableEq

/-- A rank-2 torch tensor: its second dimension (`width`, the number of
columns) and its rows.  `torch.cat` along axis 0 checks that the widths of
its arguments agree, even when one of them has zero rows. -/
structure Tensor2D (α : Type) where
  width : ℕ
  rows : List (List α)
deriving DecidableEq

/-- `x[-1, -2:]` — the last two entries of the final row of `x`.
Raises an index error when `x` has no rows; when the final row has fewer
than 2 entries, Python slicing returns the whole row. -/
def lastRowLast2 {α : Type} (x : Tensor2D α) : Except Err (List α) :=
  match x.rows.getLast? with
  | some r => .ok (r.drop (r.length - 2))
  | none => .error .indexOutOfRange

/-- Instrumented transcript of one rollout of `get_true_pred_recurrent`:
the two returned lists (`y_true`, `y_pred`, both unscaled), together with
the raw normalized prediction produced at every step (`preds`) and the
window fed to the model at every step (`windows`). -/
structure RolloutTrace (α : Type) where
  y_true : List (List α)
  y_pred : List (List α)
  preds : List (List α)
  windows : List (Tensor2D α)
deriving DecidableEq

/-- The loop body of `get_true_pred_recurrent` for steps `i ≥ 1`:
`seq` is the maintained window, `prediction` the previous raw model output.
Per step: read `(x, y)` from the source, record `unscale y`, form
`new_row = torch.cat((prediction, x[-1, -2:]))`, slide the window with
`torch.cat((seq[1:, :], new_row.unsqueeze 0), axis 0)` (whose axis-0
concatenation errors when the widths disagree), run the model, record the
unscaled prediction. -/
def rolloutGo {α : Type} (model : Tensor2D α → List α) (unscale : List α → List α) :
    List (Tensor2D α × List α) → Tensor2D α → List α → Except Err (RolloutTrace α)
  | [], _, _ => .ok ⟨[], [], [], []⟩
  | (x, y) :: rest, seq, prediction =>
    match lastRowLast2 x with
    | .error e => .error e
    | .ok exo =>
      let new_row := prediction ++ exo
      if new_row.length = seq.width then
        let seq2 : Tensor2D α := ⟨seq.width, seq.rows.drop 1 ++ [new_row]⟩
        let prediction2 := model seq2
        match rolloutGo model unscale rest seq2 prediction2 with
        | .error e => .error e
        | .ok t =>
          .ok ⟨unscale y :: t.y_true, unscale prediction2 :: t.y_pred,
               prediction2 :: t.preds, seq2 :: t.windows⟩
      else .error .shapeMismatch

/-- `get_true_pred_recurrent`, instrumented: step 0 reads `(seq, y)` from
index 0 of the source (failing on an empty source), records `unscale y`,
runs the model on the source's window and records the unscaled prediction;
the remaining steps are `rolloutGo`. -/
def rolloutFull {α : Type} (model : Tensor2D α → List α) (unscale : List α → List α)
    (ds : List (Tensor2D α × List α)) : Except Err (RolloutTrace α) :=
  match ds with
  | [] => .error .emptySource
  | (seq, y) :: rest =>
    let prediction := model seq
    match rolloutGo model unscale rest seq prediction with
    | .error e => .error e
    | .ok t =>
      .ok ⟨unscale y :: t.y_true, unscale prediction :: t.y_pred,
           prediction :: t.preds, seq :: t.windows⟩

/-- `get_true_pred_recurrent(model, test_dataset)`: the pair
`(y_true, y_pred)` of the instrumented rollout. -/
def get_true_pred_recurrent {α : Type} (model : Tensor2D α → List α)
    (unscale : List α → List α) (ds : List (Tensor2D α × List α)) :
    Except Err (List (List α) × List (List α)) :=
  (rolloutFull model unscale ds).map (fun t => (t.y_true, t.y_pred))

/-- Indexing `v[k]` of a 1-D torch tensor / Python list with a possibly
negative index: `-n ≤ k < n` wraps negatives by adding `n`; anything else
raises an index error. -/
def pyGet {α : Type} (v : List α) (k : ℤ) : Except Err α :=
  let k2 : ℤ := if k < 0 then k + v.length else k
  if k2 < 0 then .error .indexOutOfRange
  else
    match v.get? k2.toNat with
    | some a => .ok a
    | none => .error .indexOutOfRange

/-- The extraction loop of `get_block_temperature_recurrent`:
`for i in range(len(y_true))`, append `y_true[i][block_number - 1]` and
`y_pred[i][block_number - 1]`.  Indexing `y_pred[i]` when `y_pred` is
shorter than `y_true` raises an index error, as in Python. -/
def blockLoop {α : Type} :
    List (List α) → List (List α) → ℤ → Except Err (List α × List α)
  | [], _, _ => .ok ([], [])
  | t :: ts, ps, b =>
    match pyGet t (b - 1) with
    | .error e => .error e
    | .ok tv =>
      match ps with
      | [] => .error .indexOutOfRange
      | p :: rest =>
        match pyGet p (b - 1) with
        | .error e => .error e
        | .ok pv =>
          match blockLoop ts rest b with
          | .error e => .error e
          | .ok r => .ok (tv :: r.1, pv :: r.2)

/-- `get_block_temperature_recurrent(model, test_dataset, block_number)`:
run the rollout, then extract one block's scalar series from both lists. -/
def get_block_temperature_recurrent {α : Type} (model : Tensor2D α → List α)
    (unscale : List α → List α) (ds : List (Tensor2D α × List α)) (block_number : ℤ) :
    Except Err (List α × List α) :=
  match get_true_pred_recurrent model unscale ds with
  | .error e => .error e
  | .ok r => blockLoop r.1 r.2 block_number

/-- A torch `DataLoader`: the list of its batches plus
`len(loader.dataset)`, the total number of examples. -/
structure Loader (β : Type) where
  batches : List β
  datasetSize : ℕ

/-- The collaborators of `train`, bundled: `step` performs one training
batch (forward pass, loss, backward pass, `optimizer.step()`), returning
the updated model/optimizer state and `loss.item()`; `valBatchLoss` is
`criterion(model(x), y).item()` on a validation batch without touching the
state; `size` is `x.shape[0]`; `sched` is the optional
`scheduler.step(metric)` state transition; `trial`, when present, gives the
answer of `trial.should_prune()` at each epoch (one call per epoch). -/
structure TrainCfg (σ β : Type) where
  step : σ → β → σ × ℚ
  valBatchLoss : σ → β → ℚ
  size : β → ℕ
  sched : Option (σ → ℚ → σ)
  trial : Option (ℕ → Bool)

/-- The training phase of one epoch: fold over the train batches,
accumulating `loss.item() * x.shape[0]` while stepping the optimizer. -/
def runTrainBatches {σ β : Type} (cfg : TrainCfg σ β) : σ → ℚ → List β → σ × ℚ
  | s, acc, [] => (s, acc)
  | s, acc, b :: bs =>
    let r := cfg.step s b
    runTrainBatches cfg r.1 (acc + r.2 * (cfg.size b : ℚ)) bs

/-- `calculate_test_loss(model, criterion, test_loader)`: the size-weighted
accumulated loss over the loader's batches.  Note: this function performs
no division — it returns the raw accumulated sum. -/
def calculate_test_loss {σ β : Type} (cfg : TrainCfg σ β) (s : σ) : ℚ → List β → ℚ
  | acc, [] => acc
  | acc, b :: bs => calculate_test_loss cfg s (acc + cfg.valBatchLoss s b * (cfg.size b : ℚ)) bs

/-- Everything one epoch of `train` records or passes outward: the mean
training loss appended to `train_losses`, the raw accumulated validation
loss (`val_loss` before the division), the argument passed to
`scheduler.step` this epoch (if a scheduler is present), the mean
validation loss appended to `val_losses`, and the `(value, epoch)` pair
passed to `trial.report` (if a trial is present). -/
structure EpochLog where
  trainLoss : ℚ
  valRaw : ℚ
  schedArg : Option ℚ
  valLoss : ℚ
  report : Option (ℚ × ℕ)
deriving DecidableEq

/-- Outcome of a `train` call: the per-epoch logs, and either normal
completion or the `TrialPruned` error raised mid-loop. -/
structure TrainResult where
  logs : List EpochLog
  outcome : Except Err Unit

/-- The epoch loop of `train`, one iteration of `for epoch in
range(1, num_epochs + 1)` per unfolding, in source order: training phase,
division by `len(train_loader.dataset)`, `calculate_test_loss`,
`scheduler.step(val_loss)` on the **pre-division** value, division by
`len(val_loader.dataset)`, `trial.report(val_loss, epoch)` on the
post-division value, and `raise optuna.exceptions.TrialPruned()` when
`trial.should_prune()` answers true.  Plotting and printing every
`epoch_freq` epochs are purely observational and record nothing. -/
def trainGo {σ β : Type} (cfg : TrainCfg σ β) (train_loader val_loader : Loader β) :
    ℕ → ℕ → σ → TrainResult
  | 0, _, _ => ⟨[], .ok ()⟩
  | rem + 1, epoch, s =>
    let p1 := runTrainBatches cfg s 0 train_loader.batches
    let s1 := p1.1
    let train_loss := p1.2 / (train_loader.datasetSize : ℚ)
    let val_raw := calculate_test_loss cfg s1 0 val_loader.batches
    let s2 := match cfg.sched with
      | some f => f s1 val_raw
      | none => s1
    let schedArg : Option ℚ := match cfg.sched with
      | some _ => some val_raw
      | none => none
    let val_loss := val_raw / (val_loader.datasetSize : ℚ)
    let rep : Option (ℚ × ℕ) := match cfg.trial with
      | some _ => some (val_loss, epoch)
      | none => none
    let prune : Bool := match cfg.trial with
      | some pr => pr epoch
      | none => false
    let log : EpochLog := ⟨train_loss, val_raw, schedArg, val_loss, rep⟩
    if prune then ⟨[log], .error .pruned⟩
    else
      let r := trainGo cfg train_loader val_loader rem (epoch + 1) s2
      ⟨log :: r.logs, r.outcome⟩

/-- `train(model, criterion, optimizer, scheduler, train_loader,
val_loader, num_epochs, epoch_freq, plot_progress, print_progress, trial)`:
run the epoch loop from epoch 1 through `num_epochs` on initial state `s0`.
`epoch_freq`, `plot_progress` and `print_progress` only control plotting
and printing, which have no effect on the training state or histories. -/
def train {σ β : Type} (cfg : TrainCfg σ β) (train_loader val_loader : Loader β)
    (num_epochs epoch_freq : ℕ) (plot_progress print_progress : Bool) (s0 : σ) :
    TrainResult :=
  trainGo cfg train_loader val_loader num_epochs 1 s0

/-! ## Concrete instances (stub collaborators, used by witnesses and
counterexamples) -/

/-- A stub Predictor echoing the fixed vector `[1, 1]` (2 blocks). -/
def exModel : Tensor2D ℤ → List ℤ := fun _ => [1, 1]

/-- A stub unscaling function adding 100 to every entry. -/
def exUnscale : List ℤ → List ℤ := fun v => v.map (fun a => a + 100)

/-- A stub source of length 2 with windows of 1 row and width 4
(2 prediction columns, 2 exogenous columns). -/
def exSrc : List (Tensor2D ℤ × List ℤ) :=
  [(⟨4, [[1, 2, 3, 4]]⟩, [5, 6]), (⟨4, [[7, 8, 9, 10]]⟩, [11, 12])]

/-- The rollout transcript of `exModel` over `exSrc`: step 1's window row
is `[1, 1, 9, 10]` — the stub's step-0 output `[1, 1]` followed by the
last two entries `[9, 10]` of `exSrc`'s second window's final row. -/
def exTrace : RolloutTrace ℤ :=
  ⟨[[105, 106], [111, 112]], [[101, 101], [101, 101]], [[1, 1], [1, 1]],
   [⟨4, [[1, 2, 3, 4]]⟩, ⟨4, [[1, 1, 9, 10]]⟩]⟩

/-- A stub Predictor with zero prediction columns. -/
def c4model : Tensor2D ℤ → List ℤ := fun _ => []

/-- A source whose initial window has zero rows (`L = 0`) but whose later
window provides a final row for the exogenous columns. -/
def c4src : List (Tensor2D ℤ × List ℤ) :=
  [(⟨2, []⟩, [0]), (⟨2, [[1, 2]]⟩, [0])]

/-- A stub Predictor with the contractual output width 2 for `W = 4`. -/
def c5model : Tensor2D ℤ → List ℤ := fun _ => [1, 1]

/-- A source whose windows have widths 4 and then 5 — the width varies
across steps. -/
def c5src : List (Tensor2D ℤ × List ℤ) :=
  [(⟨4, [[0, 0, 0, 0]]⟩, [0, 0]), (⟨5, [[9, 9, 9, 7, 8]]⟩, [0, 0])]

/-- A stub Predictor whose output width 3 violates `B = W - 2 = 2`. -/
def c5amModel : Tensor2D ℤ → List ℤ := fun _ => [1, 1, 1]

/-- A well-formed width-4 source of length 2. -/
def c5amSrc : List (Tensor2D ℤ × List ℤ) :=
  [(⟨4, [[0, 0, 0, 0]]⟩, [0, 0]), (⟨4, [[1, 2, 3, 4]]⟩, [0, 0])]

/-- The 0-based index actually used by the block extraction loop for the
1-based `block_number` `b` on vectors of length `B`: Python and torch wrap
one negative step, so `b - 1` when `b ≥ 1` and `b - 1 + B` otherwise. -/
def eIdx (b : ℤ) (B : ℕ) : ℤ := if b - 1 < 0 then b - 1 + (B : ℤ) else b - 1

/-- A trial stub whose `should_prune()` first answers true at epoch 2. -/
def c8pr : ℕ → Bool := fun e => decide (2 ≤ e)

/-- A training configuration with a trial pruning at epoch 2, constant
batch loss 2 on training batches and 6 on validation batches. -/
def c8cfg : TrainCfg Unit Unit :=
  ⟨fun s _ => (s, 2), fun _ _ => 6, fun _ => 2, none, some c8pr⟩

/-- A loader with two size-2 batches over a 4-example dataset. -/
def unitLoader : Loader Unit := ⟨[(), ()], 4⟩

/-- A training configuration with a (state-preserving) scheduler and no
trial. -/
def c9cfg : TrainCfg Unit Unit :=
  ⟨fun s _ => (s, 2), fun _ _ => 6, fun _ => 2, some (fun s _ => s), none⟩

/-! ## Helper lemmas about the rollout -/

lemma lastRowLast2_ok_iff {α : Type} {x : Tensor2D α} {exo : List α} :
    lastRowLast2 x = .ok exo ↔
      ∃ r, x.rows.getLast? = some r ∧ exo = r.drop (r.length - 2) := by
  cases h : x.rows.getLast? with
  | none => simp [lastRowLast2, h]
  | some r =>
    simp only [lastRowLast2, h]
    constructor
    · intro he
      exact ⟨r, rfl, by cases he; rfl⟩
    · rintro ⟨r2, hr2, he⟩
      cases hr2
      cases he
      rfl

/-- Structure of the accepting runs of `rolloutGo`: whenever step `k` of the
remaining source is consumed, the window recorded for that step is the
previous window with its oldest row dropped and one new row appended, and
that new row is the previous raw prediction followed by the last two
entries of the final row of the source's window for the step. -/
lemma rolloutGo_steps {α : Type} (model : Tensor2D α → List α) (unscale : List α → List α) :
    ∀ (rest : List (Tensor2D α × List α)) (seq : Tensor2D α) (pred : List α)
      (t : RolloutTrace α),
      rolloutGo model unscale rest seq pred = .ok t →
      ∀ k w y, rest.get? k = some (w, y) →
        ∃ pw p r,
          (seq :: t.windows).get? k = some pw ∧
          (pred :: t.preds).get? k = some p ∧
          w.rows.getLast? = some r ∧
          t.windows.get? k = some ⟨pw.width, pw.rows.drop 1 ++ [p ++ r.drop (r.length - 2)]⟩ := by
  intro rest
  induction rest with
  | nil =>
    intro seq pred t h k w y hk
    simp at hk
  | cons hd rs ih =>
    obtain ⟨x, y0⟩ := hd
    intro seq pred t h k w y hk
    rw [rolloutGo] at h
    cases hx : lastRowLast2 x with
    | error e => rw [hx] at h; cases h
    | ok exo =>
      rw [hx] at h
      simp only at h
      by_cases hlen : (pred ++ exo).length = seq.width
      · rw [if_pos hlen] at h
        cases hrec : rolloutGo model unscale rs
            ⟨seq.width, seq.rows.drop 1 ++ [pred ++ exo]⟩
            (model ⟨seq.width, seq.rows.drop 1 ++ [pred ++ exo]⟩) with
        | error e => rw [hrec] at h; cases h
        | ok t2 =>
          rw [hrec] at h
          cases h
          obtain ⟨r, hr, hexo⟩ := lastRowLast2_ok_iff.mp hx
          cases k with
          | zero =>
            simp only [List.get?_cons_zero, Option.some_inj] at hk
            cases hk
            refine ⟨seq, pred, r, rfl, rfl, hr, ?_⟩
            simp [hexo]
          | succ k =>
            simp only [List.get?_cons_succ] at hk
            obtain ⟨pw, p, r2, h1, h2, h3, h4⟩ := ih _ _ _ hrec k w y hk
            exact ⟨pw, p, r2, h1, h2, h3, h4⟩
      · rw [if_neg hlen] at h
        cases h

/-- Every window recorded by an accepting run of `rolloutGo` keeps the row
count of the incoming window, provided that count is at least 1. -/
lemma rolloutGo_windows_length {α : Type} (model : Tensor2D α → List α)
    (unscale : List α → List α) :
    ∀ (rest : List (Tensor2D α × List α)) (seq : Tensor2D α) (pred : List α)
      (t : RolloutTrace α),
      rolloutGo model unscale rest seq pred = .ok t →
      1 ≤ seq.rows.length →
      ∀ w ∈ t.windows, w.rows.length = seq.rows.length := by
  intro rest
  induction rest with
  | nil =>
    intro seq pred t h hL w hw
    rw [rolloutGo] at h
    cases h
    simp at hw
  | cons hd rs ih =>
    obtain ⟨x, y0⟩ := hd
    intro seq pred t h hL w hw
    rw [rolloutGo] at h
    cases hx : lastRowLast2 x with
    | error e => rw [hx] at h; cases h
    | ok exo =>
      rw [hx] at h
      simp only at h
      by_cases hlen : (pred ++ exo).length = seq.width
      · rw [if_pos hlen] at h
        cases hrec : rolloutGo model unscale rs
            ⟨seq.width, seq.rows.drop 1 ++ [pred ++ exo]⟩
            (model ⟨seq.width, seq.rows.drop 1 ++ [pred ++ exo]⟩) with
        | error e => rw [hrec] at h; cases h
        | ok t2 =>
          rw [hrec] at h
          cases h
          have hkeep : (seq.rows.drop 1 ++ [pred ++ exo]).length = seq.rows.length := by
            simp [List.length_drop]
            omega
          simp only [List.mem_cons] at hw
          cases hw with
          | inl hw => cases hw; exact hkeep
          | inr hw =>
            have := ih _ _ _ hrec (by rw [hkeep]; exact hL) w hw
            rw [this, hkeep]
      · rw [if_neg hlen] at h
        cases h

/-- When the Predictor honours its contract (output width `W - 2` on every
window, for the width `W` of the initial window) and every later source
window has a final row of at least two entries, `rolloutGo` accepts, its
`y_true` output is the unscaled targets of the remaining source in order,
and its `y_pred` output is the pointwise unscaling of its raw predictions,
one per remaining step. -/
lemma rolloutGo_ok_of {α : Type} (model : Tensor2D α → List α)
    (unscale : List α → List α) (W : ℕ) (hW : 2 ≤ W)
    (hm : ∀ w, (model w).length = W - 2) :
    ∀ (rest : List (Tensor2D α × List α)) (seq : Tensor2D α) (pred : List α),
      seq.width = W → pred.length = W - 2 →
      (∀ wy ∈ rest, ∃ r, wy.1.rows.getLast? = some r ∧ 2 ≤ r.length) →
      ∃ t, rolloutGo model unscale rest seq pred = .ok t ∧
        t.y_true = rest.map (fun wy => unscale wy.2) ∧
        t.y_pred = t.preds.map unscale ∧
        t.preds.length = rest.length := by
  intro rest
  induction rest with
  | nil =>
    intro seq pred hsw hpl hsrc
    exact ⟨⟨[], [], [], []⟩, rfl, rfl, rfl, rfl⟩
  | cons hd rs ih =>
    obtain ⟨x, y0⟩ := hd
    intro seq pred hsw hpl hsrc
    obtain ⟨r, hr, hr2⟩ := hsrc (x, y0) (List.mem_cons_self _ _)
    have hx : lastRowLast2 x = .ok (r.drop (r.length - 2)) :=
      lastRowLast2_ok_iff.mpr ⟨r, hr, rfl⟩
    have hexolen : (r.drop (r.length - 2)).length = 2 := by
      simp [List.length_drop]
      omega
    have hlen : (pred ++ r.drop (r.length - 2)).length = seq.width := by
      simp only [List.length_append, hpl, hexolen, hsw]
      omega
    set seq2 : Tensor2D α := ⟨seq.width, seq.rows.drop 1 ++ [pred ++ r.drop (r.length - 2)]⟩
      with hseq2
    obtain ⟨t2, hrec, hyt, hyp, hplen⟩ :=
      ih seq2 (model seq2) (by rw [hseq2, hsw]) (hm seq2)
        (fun wy hwy => hsrc wy (List.mem_cons_of_mem _ hwy))
    refine ⟨⟨unscale y0 :: t2.y_true, unscale (model seq2) :: t2.y_pred,
             model seq2 :: t2.preds, seq2 :: t2.windows⟩, ?_, ?_, ?_, ?_⟩
    · rw [rolloutGo, hx]
      simp only
      rw [if_pos hlen, hrec]
    · simp [hyt]
    · simp [hyp]
    · simp [hplen]

/-! ## Helper lemmas about the block extraction loop -/

lemma pyGet_ok_of {α : Type} {v : List α} {B : ℕ} (hv : v.length = B) {b : ℤ}
    (h0 : 0 ≤ eIdx b B) (hB : eIdx b B < (B : ℤ)) :
    ∃ a, v.get? (eIdx b B).toNat = some a ∧ pyGet v (b - 1) = .ok a := by
  have hidx : (eIdx b B).toNat < v.length := by
    rw [hv]
    omega
  cases hg : v.get? (eIdx b B).toNat with
  | none =>
    rw [List.get?_eq_none] at hg
    omega
  | some a =>
    refine ⟨a, rfl, ?_⟩
    have hk2 : (if b - 1 < 0 then b - 1 + (v.length : ℤ) else b - 1) = eIdx b B := by
      rw [hv]; rfl
    rw [pyGet]
    simp only [hk2]
    rw [if_neg (by omega), hg]

lemma pyGet_err_of {α : Type} {v : List α} {B : ℕ} (hv : v.length = B) {b : ℤ}
    (h : eIdx b B < 0 ∨ (B : ℤ) ≤ eIdx b B) :
    pyGet v (b - 1) = .error .indexOutOfRange := by
  have hk2 : (if b - 1 < 0 then b - 1 + (v.length : ℤ) else b - 1) = eIdx b B := by
    rw [hv]; rfl
  rw [pyGet]
  simp only [hk2]
  cases h with
  | inl h => rw [if_pos h]
  | inr h =>
    rw [if_neg (by omega)]
    have hg : v.get? (eIdx b B).toNat = none := by
      rw [List.get?_eq_none, hv]
      omega
    rw [hg]

/-- The block extraction loop succeeds on an in-range effective index and
returns the two pointwise projections of the input lists. -/
lemma blockLoop_ok {α : Type} (B : ℕ) (b : ℤ) (h0 : 0 ≤ eIdx b B)
    (hB : eIdx b B < (B : ℤ)) :
    ∀ (yt yp : List (List α)), yt.length = yp.length →
      (∀ v ∈ yt, v.length = B) → (∀ v ∈ yp, v.length = B) →
      ∃ ts ps, blockLoop yt yp b = .ok (ts, ps) ∧
        ts.length = yt.length ∧ ps.length = yp.length ∧
        (∀ i v, yt.get? i = some v → ts.get? i = v.get? (eIdx b B).toNat) ∧
        (∀ i v, yp.get? i = some v → ps.get? i = v.get? (eIdx b B).toNat) := by
  intro yt
  induction yt with
  | nil =>
    intro yp hlen h1 h2
    cases yp with
    | nil => exact ⟨[], [], rfl, rfl, rfl, by simp, by simp⟩
    | cons p ps => simp at hlen
  | cons t ts ih =>
    intro yp hlen h1 h2
    cases yp with
    | nil => simp at hlen
    | cons p ps =>
      obtain ⟨a, ha, hpg⟩ := pyGet_ok_of (h1 t (List.mem_cons_self _ _)) h0 hB
      obtain ⟨a2, ha2, hpg2⟩ := pyGet_ok_of (h2 p (List.mem_cons_self _ _)) h0 hB
      obtain ⟨ts2, ps2, hbl, hl1, hl2, hi1, hi2⟩ :=
        ih ps (by simpa using hlen) (fun v hv => h1 v (List.mem_cons_of_mem _ hv))
          (fun v hv => h2 v (List.mem_cons_of_mem _ hv))
      refine ⟨a :: ts2, a2 :: ps2, ?_, by simp [hl1], by simp [hl2], ?_, ?_⟩
      · rw [blockLoop, hpg]
        simp only
        rw [hpg2, hbl]
      · intro i v hv
        cases i with
        | zero =>
          simp only [List.get?_cons_zero, Option.some_inj] at hv ⊢
          rw [← hv]
          exact ha.symm
        | succ i =>
          simp only [List.get?_cons_succ] at hv ⊢
          exact hi1 i v hv
      · intro i v hv
        cases i with
        | zero =>
          simp only [List.get?_cons_zero, Option.some_inj] at hv ⊢
          rw [← hv]
          exact ha2.symm
        | succ i =>
          simp only [List.get?_cons_succ] at hv ⊢
          exact hi2 i v hv

/-- On a nonempty first list, an out-of-range effective index makes the
block extraction loop fail on its very first access. -/
lemma blockLoop_err {α : Type} {B : ℕ} {b : ℤ}
    (h : eIdx b B < 0 ∨ (B : ℤ) ≤ eIdx b B) (t : List α) (hT : t.length = B)
    (ts yp : List (List α)) :
    blockLoop (t :: ts) yp b = .error .indexOutOfRange := by
  rw [blockLoop, pyGet_err_of hT h]

/-- Lifting of `rolloutGo_steps` to `rolloutFull`: the step structure of
every accepting full rollout. -/
lemma rolloutFull_steps {α : Type} (model : Tensor2D α → List α)
    (unscale : List α → List α) (ds : List (Tensor2D α × List α))
    (t : RolloutTrace α) (hok : rolloutFull model unscale ds = .ok t) :
    ∀ k w y, ds.get? (k + 1) = some (w, y) →
      ∃ pw p r,
        t.windows.get? k = some pw ∧
        t.preds.get? k = some p ∧
        w.rows.getLast? = some r ∧
        t.windows.get? (k + 1) =
          some ⟨pw.width, pw.rows.drop 1 ++ [p ++ r.drop (r.length - 2)]⟩ := by
  intro k w y hk
  cases ds with
  | nil => cases hok
  | cons hd rest =>
    obtain ⟨w0, y0⟩ := hd
    rw [rolloutFull] at hok
    cases hrec : rolloutGo model unscale rest w0 (model w0) with
    | error e => rw [hrec] at hok; cases hok
    | ok t2 =>
      rw [hrec] at hok
      cases hok
      simp only [List.get?_cons_succ] at hk
      obtain ⟨pw, p, r, h1, h2, h3, h4⟩ :=
        rolloutGo_steps model unscale rest w0 (model w0) t2 hrec k w y hk
      exact ⟨pw, p, r, h1, h2, h3, by simpa using h4⟩

/-! ## Claim theorems: recurrent rollout engine -/

/-- C1: for every rollout step `i ≥ 1`, the row appended to the maintained
window consists of the engine's own previous raw normalized prediction
(`preds` entry `i - 1` of the transcript, not its unscaled version and not
any source data) followed by the last 2 entries of the final row of the
source's `window_i`; the maintained window for step `i` is the previous
maintained window with its oldest row dropped and exactly this row
appended. -/
theorem rollout_step_row_feedback {α : Type} (model : Tensor2D α → List α)
    (unscale : List α → List α) (ds : List (Tensor2D α × List α))
    (t : RolloutTrace α) (hok : rolloutFull model unscale ds = .ok t) :
    ∀ k w y, ds.get? (k + 1) = some (w, y) →
      ∃ pw p r,
        t.windows.get? k = some pw ∧
        t.preds.get? k = some p ∧
        w.rows.getLast? = some r ∧
        t.windows.get? (k + 1) =
          some ⟨pw.width, pw.rows.drop 1 ++ [p ++ r.drop (r.length - 2)]⟩ :=
  rolloutFull_steps model unscale ds t hok

/-- C1 witness: on the concrete stub source, step 1's maintained window is
step 0's window slid by one row, the appended row being the stub's step-0
output `[1, 1]` followed by `[9, 10]`, the last two entries of the final
row of the source's second window. -/
theorem rollout_step_row_feedback_witness :
    ∃ pw p r,
      exTrace.windows.get? 0 = some pw ∧
      exTrace.preds.get? 0 = some p ∧
      (Tensor2D.mk 4 [[7, 8, 9, 10]] : Tensor2D ℤ).rows.getLast? = some r ∧
      exTrace.windows.get? 1 =
        some ⟨pw.width, pw.rows.drop 1 ++ [p ++ r.drop (r.length - 2)]⟩ :=
  rollout_step_row_feedback exModel exUnscale exSrc exTrace rfl 0
    ⟨4, [[7, 8, 9, 10]]⟩ [11, 12] rfl

/-- C2: at step 0 the engine records `unscale target_0`, feeds the source's
unmodified `window_0` to the Predictor, and records the unscaled
prediction; at every later step the window fed to the Predictor is instead
a constructed one — the previous window slid by one row, the new row built
from the engine's previous raw prediction and the source's exogenous
columns. -/
theorem rollout_step_zero {α : Type} (model : Tensor2D α → List α)
    (unscale : List α → List α) (w0 : Tensor2D α) (y0 : List α)
    (rest : List (Tensor2D α × List α)) (t : RolloutTrace α)
    (hok : rolloutFull model unscale ((w0, y0) :: rest) = .ok t) :
    t.windows.get? 0 = some w0 ∧
    t.preds.get? 0 = some (model w0) ∧
    t.y_true.get? 0 = some (unscale y0) ∧
    t.y_pred.get? 0 = some (unscale (model w0)) ∧
    (∀ k w y, ((w0, y0) :: rest).get? (k + 1) = some (w, y) →
      ∃ pw p r,
        t.windows.get? k = some pw ∧
        t.preds.get? k = some p ∧
        w.rows.getLast? = some r ∧
        t.windows.get? (k + 1) =
          some ⟨pw.width, pw.rows.drop 1 ++ [p ++ r.drop (r.length - 2)]⟩) := by
  refine ⟨?_, ?_, ?_, ?_, rolloutFull_steps model unscale _ t hok⟩ <;>
    (rw [rolloutFull] at hok
     cases hrec : rolloutGo model unscale rest w0 (model w0) with
     | error e => rw [hrec] at hok; cases hok
     | ok t2 => rw [hrec] at hok; cases hok; rfl)

/-- C2 witness: on the concrete stub source, step 0 feeds the source's own
first window to the stub model and records `unscale [5, 6] = [105, 106]`
and `unscale [1, 1] = [101, 101]`. -/
theorem rollout_step_zero_witness :
    exTrace.windows.get? 0 = some ⟨4, [[1, 2, 3, 4]]⟩ ∧
    exTrace.preds.get? 0 = some (exModel ⟨4, [[1, 2, 3, 4]]⟩) ∧
    exTrace.y_true.get? 0 = some (exUnscale [5, 6]) ∧
    exTrace.y_pred.get? 0 = some (exUnscale (exModel ⟨4, [[1, 2, 3, 4]]⟩)) ∧
    (∀ k w y, exSrc.get? (k + 1) = some (w, y) →
      ∃ pw p r,
        exTrace.windows.get? k = some pw ∧
        exTrace.preds.get? k = some p ∧
        w.rows.getLast? = some r ∧
        exTrace.windows.get? (k + 1) =
          some ⟨pw.width, pw.rows.drop 1 ++ [p ++ r.drop (r.length - 2)]⟩) :=
  rollout_step_zero exModel exUnscale ⟨4, [[1, 2, 3, 4]]⟩ [5, 6]
    [(⟨4, [[7, 8, 9, 10]]⟩, [11, 12])] exTrace rfl

/-- C3: over any nonempty source whose windows have the fixed width `W`
(with a final row of that width) and any Predictor honouring its contract
(output width `B = W - 2` on every window), the rollout succeeds and
returns exactly one `(unscale target_i, unscale prediction_i)` pair per
source step, in step order: `y_true` is the pointwise unscaling of the
source's targets and `y_pred` the pointwise unscaling of the engine's own
raw predictions, both of length `N`. -/
theorem rollout_length_and_alignment {α : Type} (model : Tensor2D α → List α)
    (unscale : List α → List α) (ds : List (Tensor2D α × List α)) (W : ℕ)
    (hne : ds ≠ []) (hW : 2 ≤ W)
    (hm : ∀ w, (model w).length = W - 2)
    (hsrc : ∀ wy ∈ ds, wy.1.width = W ∧
      ∃ r, wy.1.rows.getLast? = some r ∧ r.length = W) :
    ∃ t, rolloutFull model unscale ds = .ok t ∧
      t.y_true = ds.map (fun wy => unscale wy.2) ∧
      t.y_pred = t.preds.map unscale ∧
      t.preds.length = ds.length ∧
      t.y_true.length = ds.length ∧
      t.y_pred.length = ds.length := by
  cases ds with
  | nil => exact absurd rfl hne
  | cons hd rest =>
    obtain ⟨w0, y0⟩ := hd
    obtain ⟨hw0, -⟩ := hsrc (w0, y0) (List.mem_cons_self _ _)
    obtain ⟨t2, hrec, hyt, hyp, hplen⟩ :=
      rolloutGo_ok_of model unscale W hW hm rest w0 (model w0) hw0 (hm w0)
        (fun wy hwy => by
          obtain ⟨-, r, hr, hrW⟩ := hsrc wy (List.mem_cons_of_mem _ hwy)
          exact ⟨r, hr, by omega⟩)
    refine ⟨⟨unscale y0 :: t2.y_true, unscale (model w0) :: t2.y_pred,
             model w0 :: t2.preds, w0 :: t2.windows⟩, ?_, ?_, ?_, ?_, ?_, ?_⟩
    · rw [rolloutFull, hrec]
    · simp [hyt]
    · simp [hyp]
    · simp [hplen]
    · simp [hyt]
    · simp [hyp, hplen]

/-- C3 witness: the concrete stub rollout succeeds with two aligned
result pairs. -/
theorem rollout_length_and_alignment_witness :
    ∃ t, rolloutFull exModel exUnscale exSrc = .ok t ∧
      t.y_true = exSrc.map (fun wy => exUnscale wy.2) ∧
      t.y_pred = t.preds.map exUnscale ∧
      t.preds.length = exSrc.length ∧
      t.y_true.length = exSrc.length ∧
      t.y_pred.length = exSrc.length :=
  rollout_length_and_alignment exModel exUnscale exSrc 4 (by decide) (by decide)
    (fun w => rfl)
    (by
      intro wy hwy
      simp only [exSrc, List.mem_cons, List.not_mem_nil, or_false] at hwy
      rcases hwy with h | h <;> subst h <;> exact ⟨rfl, _, rfl, rfl⟩)

/-- C4 (amended: the initial window must be nonempty): if `window_0` has
exactly `L ≥ 1` rows then every window fed to the Predictor during the
rollout has exactly `L` rows — each step drops the oldest row and appends
one new row. -/
theorem rollout_window_length_invariant {α : Type} (model : Tensor2D α → List α)
    (unscale : List α → List α) (ds : List (Tensor2D α × List α))
    (t : RolloutTrace α) (w0 : Tensor2D α) (y0 : List α) (L : ℕ)
    (hok : rolloutFull model unscale ds = .ok t)
    (hhead : ds.get? 0 = some (w0, y0))
    (hL : w0.rows.length = L) (hL1 : 1 ≤ L) :
    ∀ w ∈ t.windows, w.rows.length = L := by
  cases ds with
  | nil => cases hok
  | cons hd rest =>
    simp only [List.get?_cons_zero, Option.some_inj] at hhead
    subst hhead
    rw [rolloutFull] at hok
    cases hrec : rolloutGo model unscale rest w0 (model w0) with
    | error e => rw [hrec] at hok; cases hok
    | ok t2 =>
      rw [hrec] at hok
      cases hok
      intro w hw
      simp only [List.mem_cons] at hw
      cases hw with
      | inl hw => rw [hw]; exact hL
      | inr hw =>
        have := rolloutGo_windows_length model unscale rest w0 (model w0) t2 hrec
          (by omega) w hw
        omega

/-- C4 counterexample: with an initial window of `L = 0` rows, the first
slide produces a 1-row window — the maintained windows of the (successful)
rollout have row counts `[0, 1]`, so the length invariant fails for
`L = 0`, refuting the claim as stated (it quantifies over every initial
row count, including 0). -/
theorem rollout_window_length_counterexample :
    (rolloutFull c4model id c4src).map
        (fun t => t.windows.map (fun w => w.rows.length)) = .ok [0, 1] ∧
      (1 : ℕ) ≠ 0 :=
  ⟨rfl, by decide⟩

/-- C4 witness (for the amended claim): on the concrete stub source with
`L = 1`, the maintained window of step 1 still has exactly 1 row. -/
theorem rollout_window_length_invariant_witness :
    (exTrace.windows.getD 1 ⟨0, []⟩).rows.length = 1 :=
  rollout_window_length_invariant exModel exUnscale exSrc exTrace
    ⟨4, [[1, 2, 3, 4]]⟩ [5, 6] 1 rfl rfl rfl (by decide)
    (exTrace.windows.getD 1 ⟨0, []⟩) (by decide)

/-- C5 (amended): a Predictor output width different from `B = W - 2` is
detected — on a source of length ≥ 2 whose step-1 window has a final row
of at least 2 entries, the slide at step 1 fails with the
ShapeMismatch-kind error.  (The other half of the original claim is false:
source windows whose width differs from `W` are not detected, because only
the last 2 entries of their final row are ever read — see the
counterexample.) -/
theorem rollout_predictor_width_mismatch {α : Type} (model : Tensor2D α → List α)
    (unscale : List α → List α) (w0 : Tensor2D α) (y0 : List α)
    (w1 : Tensor2D α) (y1 : List α) (rest : List (Tensor2D α × List α))
    (r : List α)
    (hlast : w1.rows.getLast? = some r) (hr : 2 ≤ r.length)
    (hwidth : (model w0).length + 2 ≠ w0.width) :
    rolloutFull model unscale ((w0, y0) :: (w1, y1) :: rest) =
      .error .shapeMismatch := by
  have hx : lastRowLast2 w1 = .ok (r.drop (r.length - 2)) :=
    lastRowLast2_ok_iff.mpr ⟨r, hlast, rfl⟩
  have hneg : ¬ ((model w0 ++ r.drop (r.length - 2)).length = w0.width) := by
    simp only [List.length_append, List.length_drop]
    omega
  rw [rolloutFull, rolloutGo, hx]
  simp only [if_neg hneg]

/-- C5 witness (for the amended claim): a stub Predictor of output width 3
on a width-4 source makes the rollout fail with ShapeMismatch. -/
theorem rollout_predictor_width_mismatch_witness :
    rolloutFull c5amModel id c5amSrc = .error .shapeMismatch :=
  rollout_predictor_width_mismatch c5amModel id ⟨4, [[0, 0, 0, 0]]⟩ [0, 0]
    ⟨4, [[1, 2, 3, 4]]⟩ [0, 0] [] [1, 2, 3, 4] rfl (by decide) (by decide)

/-- C5 counterexample: a source whose windows have widths 4 and then 5
(the width varies across steps) does **not** make the rollout fail — it
returns a length-2 result, because steps `i ≥ 1` only read the last 2
entries of the final row of `window_i` and discard the rest, so no width
check ever sees the source window.  This refutes the first half of the
claim. -/
theorem rollout_source_width_unchecked_counterexample :
    c5src.map (fun wy => wy.1.width) = [4, 5] ∧
      (rolloutFull c5model id c5src).map (fun t => t.y_pred.length) = .ok 2 :=
  ⟨rfl, rfl⟩

/-- C6: the rollout over a length-0 source fails with the
EmptySource-kind error (the failing read of index 0 at the undefined
initial step) for every Predictor and unscaling function — it never
returns an empty result list. -/
theorem rollout_empty_source {α : Type} (model : Tensor2D α → List α)
    (unscale : List α → List α) :
    rolloutFull model unscale [] = .error .emptySource :=
  rfl

/-! ## Claim theorems: block extractor -/

/-- C7 (amended): for a Result Sequence of length `N` with `B` blocks, the
extraction loop works through the effective 0-based index
`eIdx b B` (`b - 1`, wrapped once by `+ B` when negative, as Python/torch
indexing does).  When that index is in range the loop returns two parallel
length-`N` series projecting every vector at it — in particular for
`1 ≤ b ≤ B` the index is exactly `b - 1`, as the original claim states.
When it is out of range — which happens exactly for `b > B` or
`b ≤ -B`, **not** for every `b < 1` — the loop fails with the
IndexOutOfRange-kind error provided `N ≥ 1` (a length-0 sequence is
never indexed, so it cannot fail). -/
theorem block_extractor_contract {α : Type} (yt yp : List (List α)) (B : ℕ) (b : ℤ)
    (hlen : yt.length = yp.length)
    (h1 : ∀ v ∈ yt, v.length = B) (h2 : ∀ v ∈ yp, v.length = B) :
    (0 ≤ eIdx b B → eIdx b B < (B : ℤ) →
      ∃ ts ps, blockLoop yt yp b = .ok (ts, ps) ∧
        ts.length = yt.length ∧ ps.length = yp.length ∧
        (∀ i v, yt.get? i = some v → ts.get? i = v.get? (eIdx b B).toNat) ∧
        (∀ i v, yp.get? i = some v → ps.get? i = v.get? (eIdx b B).toNat)) ∧
    (yt ≠ [] → (eIdx b B < 0 ∨ (B : ℤ) ≤ eIdx b B) →
      blockLoop yt yp b = .error .indexOutOfRange) ∧
    (1 ≤ b → b ≤ (B : ℤ) → eIdx b B = b - 1 ∧ 0 ≤ eIdx b B ∧ eIdx b B < (B : ℤ)) ∧
    ((B : ℤ) < b → (B : ℤ) ≤ eIdx b B) ∧
    (b ≤ -(B : ℤ) → eIdx b B < 0) := by
  refine ⟨?_, ?_, ?_, ?_, ?_⟩
  · intro h0 hB
    exact blockLoop_ok B b h0 hB yt yp hlen h1 h2
  · intro hne h
    cases yt with
    | nil => exact absurd rfl hne
    | cons t ts => exact blockLoop_err h t (h1 t (List.mem_cons_self _ _)) ts yp
  · intro hb1 hbB
    unfold eIdx
    rw [if_neg (by omega)]
    omega
  · intro hb
    unfold eIdx
    rw [if_neg (by omega)]
    omega
  · intro hb
    unfold eIdx
    by_cases h : b - 1 < 0
    · rw [if_pos h]; omega
    · rw [if_neg h]; omega

/-- C7 counterexample: on a 1-step, 2-block Result Sequence,
`block_number = 0` (which is `< 1`, so the claim demands an
IndexOutOfRange-kind failure) does **not** fail: the computed index
`0 - 1 = -1` selects the last entry of each vector and the extractor
returns the final block's series. -/
theorem block_extractor_counterexample :
    blockLoop ([[10, 20]] : List (List ℤ)) [[30, 40]] 0 = .ok ([20], [40]) :=
  rfl

/-- C7 witness (for the amended claim): instantiated on a concrete 1-step,
2-block Result Sequence with `b = 2`. -/
theorem block_extractor_contract_witness :
    (0 ≤ eIdx 2 2 → eIdx 2 2 < (2 : ℤ) →
      ∃ ts ps, blockLoop ([[10, 20]] : List (List ℤ)) [[30, 40]] 2 = .ok (ts, ps) ∧
        ts.length = 1 ∧ ps.length = 1 ∧
        (∀ i v, ([[10, 20]] : List (List ℤ)).get? i = some v →
          ts.get? i = v.get? (eIdx 2 2).toNat) ∧
        (∀ i v, ([[30, 40]] : List (List ℤ)).get? i = some v →
          ps.get? i = v.get? (eIdx 2 2).toNat)) ∧
    (([[10, 20]] : List (List ℤ)) ≠ [] → (eIdx 2 2 < 0 ∨ (2 : ℤ) ≤ eIdx 2 2) →
      blockLoop ([[10, 20]] : List (List ℤ)) [[30, 40]] 2 = .error .indexOutOfRange) ∧
    ((1 : ℤ) ≤ 2 → (2 : ℤ) ≤ (2 : ℤ) →
      eIdx 2 2 = 2 - 1 ∧ 0 ≤ eIdx 2 2 ∧ eIdx 2 2 < (2 : ℤ)) ∧
    ((2 : ℤ) < 2 → (2 : ℤ) ≤ eIdx 2 2) ∧
    ((2 : ℤ) ≤ -(2 : ℤ) → eIdx 2 2 < 0) :=
  block_extractor_contract [[10, 20]] [[30, 40]] 2 2 rfl (by decide) (by decide)

/-- C10: with `B ≥ 1` blocks, `block_number = 0` does not fail — the
computed index `-1` wraps to the final entry, so the extractor returns the
true/predicted series of the last block (0-based index `B - 1`). -/
theorem block_extractor_zero_gives_last {α : Type} (yt yp : List (List α)) (B : ℕ)
    (hB : 1 ≤ B) (hlen : yt.length = yp.length)
    (h1 : ∀ v ∈ yt, v.length = B) (h2 : ∀ v ∈ yp, v.length = B) :
    ∃ ts ps, blockLoop yt yp 0 = .ok (ts, ps) ∧
      ts.length = yt.length ∧ ps.length = yp.length ∧
      (∀ i v, yt.get? i = some v → ts.get? i = v.get? (B - 1)) ∧
      (∀ i v, yp.get? i = some v → ps.get? i = v.get? (B - 1)) := by
  have h0 : 0 ≤ eIdx 0 B := by unfold eIdx; rw [if_pos (by omega)]; omega
  have hBe : eIdx 0 B < (B : ℤ) := by unfold eIdx; rw [if_pos (by omega)]; omega
  have htn : (eIdx 0 B).toNat = B - 1 := by unfold eIdx; rw [if_pos (by omega)]; omega
  obtain ⟨ts, ps, hbl, hl1, hl2, hi1, hi2⟩ := blockLoop_ok B 0 h0 hBe yt yp hlen h1 h2
  rw [htn] at hi1 hi2
  exact ⟨ts, ps, hbl, hl1, hl2, hi1, hi2⟩

/-- C10 witness: on a concrete 1-step, 2-block Result Sequence,
`block_number = 0` returns the last block's series. -/
theorem block_extractor_zero_gives_last_witness :
    ∃ ts ps, blockLoop ([[10, 20]] : List (List ℤ)) [[30, 40]] 0 = .ok (ts, ps) ∧
      ts.length = 1 ∧ ps.length = 1 ∧
      (∀ i v, ([[10, 20]] : List (List ℤ)).get? i = some v →
        ts.get? i = v.get? (2 - 1)) ∧
      (∀ i v, ([[30, 40]] : List (List ℤ)).get? i = some v →
        ps.get? i = v.get? (2 - 1)) :=
  block_extractor_zero_gives_last [[10, 20]] [[30, 40]] 2 (by decide) rfl
    (by decide) (by decide)

/-! ## Helper lemmas and claim theorems: training loop -/

/-- Every epoch log produced by the epoch loop satisfies: when a scheduler
is present its step received exactly the pre-division accumulated
validation loss of that epoch; the recorded validation loss is that value
divided by the validation example count; and whatever was reported to the
trial is the post-division value. -/
lemma trainGo_log_shape {σ β : Type} (cfg : TrainCfg σ β) (tl vl : Loader β) :
    ∀ (rem epoch : ℕ) (s : σ),
      ∀ l ∈ (trainGo cfg tl vl rem epoch s).logs,
        (∀ f, cfg.sched = some f → l.schedArg = some l.valRaw) ∧
        l.valLoss = l.valRaw / (vl.datasetSize : ℚ) ∧
        (∀ v e, l.report = some (v, e) → v = l.valLoss) := by
  intro rem
  induction rem with
  | zero =>
    intro epoch s l hl
    rw [trainGo] at hl
    simp at hl
  | succ rem ih =>
    intro epoch s l hl
    rw [trainGo] at hl
    by_cases hpr : (match cfg.trial with
      | some pr => pr epoch
      | none => false) = true
    · rw [if_pos hpr] at hl
      simp only [List.mem_singleton] at hl
      subst hl
      refine ⟨?_, rfl, ?_⟩
      · intro f hf
        simp only [hf]
      · intro v e hv
        cases htr : cfg.trial with
        | none => simp [htr] at hv
        | some pr =>
          simp only [htr, Option.some_inj, Prod.mk.injEq] at hv
          exact hv.1.symm
    · rw [if_neg hpr] at hl
      simp only [List.mem_cons] at hl
      cases hl with
      | inl hl =>
        subst hl
        refine ⟨?_, rfl, ?_⟩
        · intro f hf
          simp only [hf]
        · intro v e hv
          cases htr : cfg.trial with
          | none => simp [htr] at hv
          | some pr =>
            simp only [htr, Option.some_inj, Prod.mk.injEq] at hv
            exact hv.1.symm
      | inr hl => exact ih _ _ l hl

/-- C9: in every executed epoch of a `train` run with a scheduler present,
the scheduler step received exactly the pre-division size-weighted
accumulated validation loss of that epoch (the `calculate_test_loss`
value), while the value appended to the validation loss history — and, if
a trial is present, the value reported to it — is that accumulation
divided by the validation example count. -/
theorem train_scheduler_gets_pre_division {σ β : Type} (cfg : TrainCfg σ β)
    (tl vl : Loader β) (ne ef : ℕ) (pp pq : Bool) (s0 : σ)
    (f : σ → ℚ → σ) (hsched : cfg.sched = some f) :
    ∀ l ∈ (train cfg tl vl ne ef pp pq s0).logs,
      l.schedArg = some l.valRaw ∧
      l.valLoss = l.valRaw / (vl.datasetSize : ℚ) ∧
      (∀ v e, l.report = some (v, e) → v = l.valLoss) := by
  intro l hl
  obtain ⟨hs, hv, hr⟩ := trainGo_log_shape cfg tl vl ne 1 s0 l hl
  exact ⟨hs f hsched, hv, hr⟩

/-- C9 witness: a 1-epoch concrete run with a scheduler — the epoch's
scheduler argument is the raw accumulated validation loss 24, the recorded
validation loss is the mean 6. -/
theorem train_scheduler_gets_pre_division_witness :
    (train c9cfg unitLoader unitLoader 1 1 false false ()).logs.length = 1 ∧
    ∀ l ∈ (train c9cfg unitLoader unitLoader 1 1 false false ()).logs,
      l.schedArg = some l.valRaw ∧
      l.valLoss = l.valRaw / ((4 : ℕ) : ℚ) ∧
      (∀ v e, l.report = some (v, e) → v = l.valLoss) :=
  ⟨rfl, train_scheduler_gets_pre_division c9cfg unitLoader unitLoader 1 1
    false false () (fun s _ => s) rfl⟩

/-- C8: given a trial whose `should_prune()` answers false at epoch 1 and
true at epoch 2, a `train` run of at least 2 epochs stops after epoch 2
with the Pruned-kind error — distinguishable from the ShapeMismatch,
EmptySource and IndexOutOfRange kinds — having recorded exactly 2 entries
in the loss histories, and the epoch-2 log reported that epoch's
(post-division) validation loss to the trial before pruning. -/
theorem train_prunes_at_epoch_two {σ β : Type} (cfg : TrainCfg σ β)
    (tl vl : Loader β) (ne ef : ℕ) (pp pq : Bool) (s0 : σ) (pr : ℕ → Bool)
    (htrial : cfg.trial = some pr) (h1 : pr 1 = false) (h2 : pr 2 = true)
    (hne : 2 ≤ ne) :
    (train cfg tl vl ne ef pp pq s0).outcome = .error .pruned ∧
    (train cfg tl vl ne ef pp pq s0).logs.length = 2 ∧
    (∃ l, (train cfg tl vl ne ef pp pq s0).logs.get? 1 = some l ∧
      l.report = some (l.valLoss, 2) ∧
      l.valLoss = l.valRaw / (vl.datasetSize : ℚ)) ∧
    (Err.pruned ≠ Err.shapeMismatch ∧ Err.pruned ≠ Err.emptySource ∧
      Err.pruned ≠ Err.indexOutOfRange) := by
  obtain ⟨k, rfl⟩ : ∃ k, ne = k + 1 + 1 := ⟨ne - 2, by omega⟩
  unfold train
  rw [trainGo]
  rw [if_neg (by simp [htrial, h1])]
  rw [trainGo]
  rw [if_pos (by simp [htrial, h2])]
  refine ⟨rfl, rfl, ⟨_, rfl, ?_, rfl⟩, by decide, by decide, by decide⟩
  simp [htrial]

/-- C8 witness: the concrete pruning run stops after epoch 2 with the
Pruned outcome and exactly 2 recorded epochs. -/
theorem train_prunes_at_epoch_two_witness :
    (train c8cfg unitLoader unitLoader 5 1 false false ()).outcome =
      .error .pruned ∧
    (train c8cfg unitLoader unitLoader 5 1 false false ()).logs.length = 2 ∧
    (∃ l, (train c8cfg unitLoader unitLoader 5 1 false false ()).logs.get? 1 =
        some l ∧
      l.report = some (l.valLoss, 2) ∧
      l.valLoss = l.valRaw / ((4 : ℕ) : ℚ)) ∧
    (Err.pruned ≠ Err.shapeMismatch ∧ Err.pruned ≠ Err.emptySource ∧
      Err.pruned ≠ Err.indexOutOfRange) :=
  train_prunes_at_epoch_two c8cfg unitLoader unitLoader 5 1 false false ()
    c8pr rfl (by decide) (by decide) (by decide)

end TempForecast
